import Mathlib

/-!
Verification development for `cntk/debug.py`: an interactive step-through
debugger for CNTK computation graphs.  The module consists of

* `DebugNode`, a pass-through `UserFunction` whose `forward`/`backward`
  hooks run a command-line REPL loop over a class-level (process-wide)
  command queue `DebugNode._commands`;
* `debug_model`, which wraps every graph node in a `DebugNode` and clones
  the model with shared parameters;
* `save_as_legacy_model`, a passthrough to the host serializer.

Python strings handled by the parser are embedded as `List Char`; the
command queue is a Lean list whose *last* element is the queue top,
mirroring the Python idioms `commands[-1]` / `commands.pop()`.
Interactive input is embedded as a list of pending input lines, and the
`while` loops of `forward`/`backward` are run on explicit fuel.
-/

namespace CNTKDebug

/-- Which pass a debug stop belongs to: forward (`'f'`) or backward (`'b'`),
mirroring the values stored in `DebugNode._last_pass`. -/
inductive Pass where
  | f
  | b
deriving DecidableEq, Repr

/-- The Python-level class of the wrapped node `self.after`, as discriminated
by `_format_status` (`Constant`, `Parameter`, a `Function` with an `op_name`,
or any other Python object). -/
inductive NodeKind where
  | constant
  | parameter
  | functionOp (opName : List Char)
  | other (typeName : List Char)
deriving DecidableEq, Repr

/-- The metadata of the wrapped node `self.after` that `_format_status`
reads: kind, sparsity, `name`, `uid`, number of dynamic axes, and the static
shape tuple. -/
structure PyNode where
  kind : NodeKind
  isSparse : Bool
  name : List Char
  uid : List Char
  dynamicAxes : Nat
  shape : List Nat
deriving DecidableEq, Repr

/-- `node_type` as computed by the `isinstance` chain in `_format_status`. -/
def nodeTypeStr (nd : PyNode) : List Char :=
  let base :=
    match nd.kind with
    | .constant => "Constant".toList
    | .parameter => "Parameter".toList
    | .functionOp op => op
    | .other t => t
  if nd.isSparse then base ++ " (sparse)".toList else base

/-- The `name='%s' ` fragment of the status line; empty when the node has no
name (`if self.after.name:`). -/
def nameStr (nd : PyNode) : List Char :=
  if nd.name = [] then [] else "name='".toList ++ nd.name ++ "' ".toList

/-- `'[%s]' % ','.join(['*']*len(self.after.dynamic_axes))`. -/
def dynAxesStr (nd : PyNode) : List Char :=
  "[".toList ++ (String.intercalate "," (List.replicate nd.dynamicAxes "*")).toList
    ++ "]".toList

/-- Python `str` of the shape tuple, e.g. `()`, `(2,)`, `(2, 3)`. -/
def pyTupleStr : List Nat → List Char
  | [] => "()".toList
  | [a] => "(".toList ++ (toString a).toList ++ ",)".toList
  | a :: rest =>
      "(".toList ++ (toString a).toList
        ++ (rest.map fun b => ", ".toList ++ (toString b).toList).flatten
        ++ ")".toList

/-- The `uid='%s'` fragment of the status line. -/
def uidSeg (nd : PyNode) : List Char :=
  "uid='".toList ++ nd.uid ++ "'".toList

/-- The ` shape=%s%s` fragment of the status line (dynamic axes then static
shape). -/
def shapeSeg (nd : PyNode) : List Char :=
  " shape=".toList ++ dynAxesStr nd ++ pyTupleStr nd.shape

/-- `DebugNode._format_status`:
`"%s node with %suid='%s' shape=%s%s" % (node_type, name, uid, dyn_axes, shape)`. -/
def formatStatus (nd : PyNode) : List Char :=
  nodeTypeStr nd ++ " node with ".toList ++ nameStr nd ++ uidSeg nd ++ shapeSeg nd

/-- Observable console/input events emitted during a debug stop. -/
inductive Ev where
  /-- a call to `input(...)` with the forward or backward prompt -/
  | prompt (tag : Pass)
  /-- the help text printed for a not-understood command line -/
  | helpText
  /-- the empty `print()` before the forward banner -/
  | blank
  /-- the `'='*40 + ' forward/backward ' + '='*40` banner -/
  | banner (tag : Pass)
  /-- the `Forward after …` / `Backward before …` status line -/
  | statusLine (s : List Char)
  /-- `'p'` in forward: `print('Input: '); print(argument)` -/
  | printFwdInput
  /-- `'p'` in backward: prints the state and the root gradients -/
  | printBwdState
  /-- `'d'`: `pdb.set_trace()` -/
  | pdbShell
deriving DecidableEq, Repr

/-- `DebugNode._print_status(current_pass)`: banner when the pass changed
since `_last_pass`, then the status line. -/
def printStatus (lastPass cur : Pass) (nd : PyNode) : List Ev :=
  (if cur ≠ lastPass then
    (if cur = .f then [Ev.blank, Ev.banner .f] else [Ev.banner .b])
  else []) ++
  [Ev.statusLine
    ((if cur = .f then "Forward after ".toList else "Backward before ".toList)
      ++ formatStatus nd)]

/-- A Python value produced by `eval` of the text after `n`: either a
callable (applied to `(data, self.after)` by the dispatch loops) or some
non-callable object. `D` is the type of forward arguments / root gradients. -/
inductive PyVal (D : Type) where
  | callable (f : D → PyNode → Bool)
  | plain

/-- A queued command, an element of `DebugNode._commands`: a
single-character command string (`'b'`, `'c'`, `'d'`, `'f'`, `'p'`, `'n'`),
or an `eval` result. -/
inductive Cmd (D : Type) where
  | ch (c : Char)
  | code (v : PyVal D)

/-- Outcome of the Python `eval` on the text following `n`: a value, a
`SyntaxError` (caught: the line counts as not understood), or any other
exception (uncaught: it propagates). -/
inductive EvalOut (D : Type) where
  | ok (v : PyVal D)
  | synErr
  | exn

/-- Python `str.strip()`: remove leading and trailing whitespace. -/
def stripChars (l : List Char) : List Char :=
  ((l.dropWhile Char.isWhitespace).reverse.dropWhile Char.isWhitespace).reverse

/-- Value of a list of decimal digit characters. -/
def digitsToNat (l : List Char) : Nat :=
  l.foldl (fun acc c => acc * 10 + (c.toNat - 48)) 0

/-- Python `int(s)` on a string: strip, optional sign, then decimal digits;
`none` models the `ValueError` branch. -/
def pyIntL (l : List Char) : Option Int :=
  let t := stripChars l
  match t with
  | '-' :: rest =>
      if rest ≠ [] ∧ rest.all Char.isDigit then some (-(digitsToNat rest : Int))
      else none
  | '+' :: rest =>
      if rest ≠ [] ∧ rest.all Char.isDigit then some (digitsToNat rest : Int)
      else none
  | _ =>
      if t ≠ [] ∧ t.all Char.isDigit then some (digitsToNat t : Int)
      else none

/-- Result of processing one input line inside `__wait_for_input`. -/
inductive ParseRes (D : Type) where
  /-- the line was understood as this (non-empty) command list -/
  | cmds (cs : List (Cmd D))
  /-- the stripped line was empty: `continue` without printing help -/
  | emptyLine
  /-- not understood: the help text is printed and the loop continues -/
  | help
  /-- the line was exactly `q`: `sys.exit(0)` -/
  | exit
  /-- `eval` raised a non-`SyntaxError` exception, which propagates -/
  | exn

/-- One iteration of the body of `__wait_for_input`: strip the raw line and
run the `if`/`elif` chain. `evF` is the oracle for Python `eval` on the text
after a leading `n`. -/
def parseLine {D : Type} (evF : List Char → EvalOut D) (raw : List Char) :
    ParseRes D :=
  match stripChars raw with
  | [] => .emptyLine
  | c0 :: restAll =>
    if restAll = [] ∧ (c0 = 'b' ∨ c0 = 'c' ∨ c0 = 'd' ∨ c0 = 'f' ∨ c0 = 'p')
    then .cmds [.ch c0]
    else if c0 = 'n' then
      match restAll with
      | [] => .cmds [.ch 'n']
      | _ =>
        match pyIntL restAll with
        | some k =>
            if k ≤ 0 then .help else .cmds (List.replicate k.toNat (.ch 'n'))
        | none =>
          match evF restAll with
          | .ok v => .cmds [.code v]
          | .synErr => .help
          | .exn => .exn
    else if c0 = 'q' ∧ restAll = [] then .exit
    else .help

/-- Result of `__wait_for_input`: the understood command list together with
the unconsumed input lines, or the way the call ended instead. -/
inductive WaitRes (D : Type) where
  /-- `understood` became a command list; `rest` is the remaining input -/
  | got (cs : List (Cmd D)) (rest : List (List Char))
  /-- the input stream ran out: the prompt is waiting for the user -/
  | blocked
  /-- `q`: `sys.exit(0)` -/
  | exited
  /-- an uncaught exception propagated out of the loop -/
  | raised

/-- Events plus result of a `__wait_for_input` call. -/
structure WaitOut (D : Type) where
  evs : List Ev
  res : WaitRes D

/-- `DebugNode.__wait_for_input(prompt)`: repeatedly read a line and parse
it until some line is understood.  `tag` records which prompt string is
passed (`'[CNTK forward] >>> '` or `'[CNTK backward] >>> '`); `lines` is
the stream of pending user input lines. -/
def waitForInput {D : Type} (evF : List Char → EvalOut D) (tag : Pass) :
    List (List Char) → WaitOut D
  | [] => ⟨[Ev.prompt tag], .blocked⟩
  | l :: rest =>
    match parseLine evF l with
    | .cmds cs => ⟨[Ev.prompt tag], .got cs rest⟩
    | .emptyLine =>
        let w := waitForInput evF tag rest
        ⟨Ev.prompt tag :: w.evs, w.res⟩
    | .help =>
        let w := waitForInput evF tag rest
        ⟨Ev.prompt tag :: Ev.helpText :: w.evs, w.res⟩
    | .exit => ⟨[Ev.prompt tag], .exited⟩
    | .exn => ⟨[Ev.prompt tag], .raised⟩

/-- Result of the `while not done` dispatch loop of `forward`/`backward`:
the final command queue and remaining input on normal completion, or the
abnormal end. `fuelOut` means the given fuel was exhausted before the loop
finished (in particular on the branch-free infinite loop reached when the
queue top is a non-callable `eval` result). -/
inductive LoopRes (D : Type) where
  | done (cmds : List (Cmd D)) (rest : List (List Char))
  | blocked
  | exited
  | raised
  | fuelOut

/-- The `while not done` loop of `DebugNode.forward`.  The queue top is
`cmds.getLast?` (Python `commands[-1]`) and popping is `cmds.dropLast`
(Python `commands.pop()`).  An empty queue triggers `__wait_for_input`.
A non-callable `eval` result matches no branch, so the loop spins. -/
def forwardLoop {D : Type} (evF : List Char → EvalOut D) (nd : PyNode)
    (arg : D) : Nat → List (Cmd D) → List (List Char) → List Ev × LoopRes D
  | 0, _, _ => ([], .fuelOut)
  | fuel + 1, cmds, lines =>
    match cmds.getLast? with
    | none =>
      let w := waitForInput evF .f lines
      match w.res with
      | .got cs rest =>
          let (evs, r) := forwardLoop evF nd arg fuel cs rest
          (w.evs ++ evs, r)
      | .blocked => (w.evs, .blocked)
      | .exited => (w.evs, .exited)
      | .raised => (w.evs, .raised)
    | some cmd =>
      match cmd with
      | .ch c =>
        if c = 'c' then ([], .done cmds lines)
        else if c = 'n' then ([], .done cmds.dropLast lines)
        else if c = 'b' then ([], .done cmds lines)
        else if c = 'f' then ([], .done cmds.dropLast lines)
        else if c = 'p' then
          let (evs, r) := forwardLoop evF nd arg fuel cmds.dropLast lines
          (Ev.printFwdInput :: evs, r)
        else if c = 'd' then ([Ev.pdbShell], .done cmds.dropLast lines)
        else forwardLoop evF nd arg fuel cmds lines
      | .code (.callable f) =>
          if f arg nd then forwardLoop evF nd arg fuel cmds.dropLast lines
          else ([], .done cmds lines)
      | .code .plain => forwardLoop evF nd arg fuel cmds lines

/-- The `while not done` loop of `DebugNode.backward`.  It differs from the
forward loop exactly where the source does: `b` pops and `f` does not, `p`
prints the state and root gradients, and `d` enters pdb *without* popping. -/
def backwardLoop {D : Type} (evF : List Char → EvalOut D) (nd : PyNode)
    (grad : D) : Nat → List (Cmd D) → List (List Char) → List Ev × LoopRes D
  | 0, _, _ => ([], .fuelOut)
  | fuel + 1, cmds, lines =>
    match cmds.getLast? with
    | none =>
      let w := waitForInput evF .b lines
      match w.res with
      | .got cs rest =>
          let (evs, r) := backwardLoop evF nd grad fuel cs rest
          (w.evs ++ evs, r)
      | .blocked => (w.evs, .blocked)
      | .exited => (w.evs, .exited)
      | .raised => (w.evs, .raised)
    | some cmd =>
      match cmd with
      | .ch c =>
        if c = 'c' then ([], .done cmds lines)
        else if c = 'n' then ([], .done cmds.dropLast lines)
        else if c = 'b' then ([], .done cmds.dropLast lines)
        else if c = 'f' then ([], .done cmds lines)
        else if c = 'p' then
          let (evs, r) := backwardLoop evF nd grad fuel cmds.dropLast lines
          (Ev.printBwdState :: evs, r)
        else if c = 'd' then ([Ev.pdbShell], .done cmds lines)
        else backwardLoop evF nd grad fuel cmds lines
      | .code (.callable f) =>
          if f grad nd then backwardLoop evF nd grad fuel cmds.dropLast lines
          else ([], .done cmds lines)
      | .code .plain => backwardLoop evF nd grad fuel cmds lines

/-- The shared, class-level debugger state: `DebugNode._commands` and
`DebugNode._last_pass`. -/
structure DbgState (D : Type) where
  commands : List (Cmd D)
  lastPass : Pass

/-- Result of a full `forward` call: the updated shared state, remaining
input, and the returned pair `(None, argument)` — or the abnormal end. -/
inductive FwdRes (D : Type) where
  | ok (st : DbgState D) (rest : List (List Char)) (retState : Option Unit)
      (retOut : D)
  | blocked
  | exited
  | raised
  | fuelOut

/-- `DebugNode.forward(argument)` on the wrapped node `nd`: print the
status, run the dispatch loop on the shared queue, set `_last_pass = 'f'`
and `return None, argument`. -/
def forwardFn {D : Type} (evF : List Char → EvalOut D) (fuel : Nat)
    (nd : PyNode) (arg : D) (st : DbgState D) (lines : List (List Char)) :
    List Ev × FwdRes D :=
  let evs0 := printStatus st.lastPass .f nd
  let (evs, r) := forwardLoop evF nd arg fuel st.commands lines
  match r with
  | .done cmds rest => (evs0 ++ evs, .ok ⟨cmds, .f⟩ rest none arg)
  | .blocked => (evs0 ++ evs, .blocked)
  | .exited => (evs0 ++ evs, .exited)
  | .raised => (evs0 ++ evs, .raised)
  | .fuelOut => (evs0 ++ evs, .fuelOut)

/-- Result of a full `backward` call: the updated shared state, remaining
input, and the returned `root_gradients` — or the abnormal end. -/
inductive BwdRes (D : Type) where
  | ok (st : DbgState D) (rest : List (List Char)) (retGrad : D)
  | blocked
  | exited
  | raised
  | fuelOut

/-- `DebugNode.backward(state, root_gradients)` on the wrapped node `nd`:
print the status, run the dispatch loop, set `_last_pass = 'b'` and
`return root_gradients`. -/
def backwardFn {D : Type} (evF : List Char → EvalOut D) (fuel : Nat)
    (nd : PyNode) (grad : D) (st : DbgState D) (lines : List (List Char)) :
    List Ev × BwdRes D :=
  let evs0 := printStatus st.lastPass .b nd
  let (evs, r) := backwardLoop evF nd grad fuel st.commands lines
  match r with
  | .done cmds rest => (evs0 ++ evs, .ok ⟨cmds, .b⟩ rest grad)
  | .blocked => (evs0 ++ evs, .blocked)
  | .exited => (evs0 ++ evs, .exited)
  | .raised => (evs0 ++ evs, .raised)
  | .fuelOut => (evs0 ++ evs, .fuelOut)

/-- One invocation in the interleaved forward/backward traversal: a call of
`forward` with argument `arg`, or of `backward` with root gradients `grad`,
on the `DebugNode` wrapping `nd`. -/
inductive Visit (D : Type) where
  | fwd (nd : PyNode) (arg : D)
  | bwd (nd : PyNode) (grad : D)

/-- The pass a visit belongs to. -/
def passOf {D : Type} : Visit D → Pass
  | .fwd _ _ => .f
  | .bwd _ _ => .b

/-- `_last_pass` after a sequence of visits starting from `p`. -/
def finalPass {D : Type} (p : Pass) (vs : List (Visit D)) : Pass :=
  vs.foldl (fun _ v => passOf v) p

/-- The data a queued predicate is applied to at a visit: the forward
argument or the root gradients. -/
def dataOf {D : Type} : Visit D → D
  | .fwd _ a => a
  | .bwd _ g => g

/-- The wrapped node of a visit. -/
def nodeOf {D : Type} : Visit D → PyNode
  | .fwd nd _ => nd
  | .bwd nd _ => nd

/-- Result of one visit as seen by the shared state (return values
dropped). -/
inductive StepRes (D : Type) where
  | ok (st : DbgState D) (rest : List (List Char))
  | blocked
  | exited
  | raised
  | fuelOut

/-- Run one visit against the shared state. -/
def doVisit {D : Type} (evF : List Char → EvalOut D) (fuel : Nat)
    (st : DbgState D) (lines : List (List Char)) :
    Visit D → List Ev × StepRes D
  | .fwd nd arg =>
    let (evs, r) := forwardFn evF fuel nd arg st lines
    match r with
    | .ok st' rest _ _ => (evs, .ok st' rest)
    | .blocked => (evs, .blocked)
    | .exited => (evs, .exited)
    | .raised => (evs, .raised)
    | .fuelOut => (evs, .fuelOut)
  | .bwd nd grad =>
    let (evs, r) := backwardFn evF fuel nd grad st lines
    match r with
    | .ok st' rest _ => (evs, .ok st' rest)
    | .blocked => (evs, .blocked)
    | .exited => (evs, .exited)
    | .raised => (evs, .raised)
    | .fuelOut => (evs, .fuelOut)

/-- Run a sequence of visits, threading the single process-wide debugger
state (`DebugNode._commands`, `DebugNode._last_pass`) and the input stream
through all of them, whatever node each visit touches.  Returns the event
lists of the performed visits (the offending visit's events included when
the run ends abnormally). -/
def runVisits {D : Type} (evF : List Char → EvalOut D) (fuel : Nat)
    (st : DbgState D) (lines : List (List Char)) :
    List (Visit D) → List (List Ev) × StepRes D
  | [] => ([], .ok st lines)
  | v :: vs =>
    let (evs, r) := doVisit evF fuel st lines v
    match r with
    | .ok st' rest =>
        let (evss, rr) := runVisits evF fuel st' rest vs
        (evs :: evss, rr)
    | .blocked => ([evs], .blocked)
    | .exited => ([evs], .exited)
    | .raised => ([evs], .raised)
    | .fuelOut => ([evs], .fuelOut)

/-- Number of `input(...)` prompts among a visit's events. -/
def promptCount (evs : List Ev) : Nat :=
  evs.countP fun e => match e with | .prompt _ => true | _ => false

/-- Number of help-text printouts among a list of events. -/
def helpCount (evs : List Ev) : Nat :=
  evs.countP fun e => match e with | .helpText => true | _ => false

/-! ### `debug_model` and the host-framework graph utilities

`debug_model` calls `cntk.graph.depth_first_search` and
`Function.clone(CloneMethod.share, mod)`, both of which live outside this
repository excerpt; they are modelled from the spec below. -/

/-- A host-framework graph node: a unique id together with its input
nodes. -/
inductive GNode where
  | node (uid : List Char) (children : List GNode)

/-- Modelled from the spec: `cntk.graph.depth_first_search` (not under
`src/`) "walks the existing graph"; it visits a node, then its inputs,
depth first, and returns the visited nodes accepted by the predicate. -/
def depth_first_search (g : GNode) (pred : GNode → Bool) : List GNode :=
  (visitAll g).filter pred
where
  /-- all nodes reachable from `g`, root first, depth first -/
  visitAll : GNode → List GNode
    | .node u cs => .node u cs :: (cs.attach.map fun c => visitAll c.1).flatten
  decreasing_by
    have h := List.sizeOf_lt_of_mem c.2
    simp only [GNode.node.sizeOf_spec]
    omega

/-- The Lean image of a freshly constructed `DebugNode(n)`: it records the
wrapped node `self.after = n` and the default constructor name. -/
structure DebugNodeRec where
  after : GNode
  nodeName : List Char

/-- The clone method passed to `Function.clone`; `debug_model` uses
`CloneMethod.share`. -/
inductive CloneMethod where
  /-- parameters of the clone stay aliased to the original's -/
  | share
  /-- parameters are copied -/
  | cloneNew
  /-- parameters are copied and frozen -/
  | freeze
deriving DecidableEq, Repr

/-- Modelled from the spec: `Function.clone` (not under `src/`) is "a
host-framework operation producing a structurally modified copy of a graph
while keeping trainable parameters aliased to the original" when the method
is `share`; the model records the method, the original graph and the
substitution map it was given. -/
structure ClonedModel where
  method : CloneMethod
  base : GNode
  substitution : List (GNode × DebugNodeRec)

/-- Modelled from the spec: the `clone` call itself. -/
def cloneModel (m : GNode) (method : CloneMethod)
    (sub : List (GNode × DebugNodeRec)) : ClonedModel :=
  ⟨method, m, sub⟩

/-- `debug_model(model)`: collect every node by depth-first search, map each
to a fresh `DebugNode` wrapping it, and clone the model with
`CloneMethod.share` under that substitution. -/
def debug_model (model : GNode) : ClonedModel :=
  let nodes := depth_first_search model (fun _ => true)
  let mod := nodes.map fun n => (n, DebugNodeRec.mk n "DebugNode".toList)
  cloneModel model .share mod

/-! ### `save_as_legacy_model` -/

/-- A call into the host framework made by this module. -/
inductive HostCall where
  /-- `cntk_py.save_as_legacy_model(root_op, filename)` -/
  | saveLegacy (root : GNode) (filename : List Char)

/-- `save_as_legacy_model(root_op, filename)`: its body is the single
statement `cntk_py.save_as_legacy_model(root_op, filename)`.  The model
returns the host calls performed together with the (untouched) graph and
shared debugger state. -/
def save_as_legacy_model {D : Type} (root_op : GNode) (filename : List Char)
    (st : DbgState D) : List HostCall × GNode × DbgState D :=
  ([HostCall.saveLegacy root_op filename], root_op, st)

/-! ### Concrete fixtures used by witnesses and counterexamples -/

/-- A Python `eval` oracle whose every expression evaluates to a
non-callable object. -/
def evalPlain : List Char → EvalOut Nat := fun _ => .ok (.plain)

/-- An unnamed sparse-free constant node of shape `(2,)` with no dynamic
axes. -/
def nd0 : PyNode :=
  { kind := .constant, isSparse := false, name := [], uid := "c1".toList,
    dynamicAxes := 0, shape := [2] }

/-- A named `Times` function node with two dynamic axes. -/
def nd1 : PyNode :=
  { kind := .functionOp "Times".toList, isSparse := false,
    name := "out".toList, uid := "Times29".toList, dynamicAxes := 2,
    shape := [2] }

/-- A one-node graph. -/
def g0 : GNode := .node "z".toList []

/-- The predicate of the docstring example
`lambda arg, node: node.op_name == 'Times'` (checked here via the uid of
the `Times` node fixture). -/
def fTimes : Nat → PyNode → Bool := fun _ nd => nd.uid == "Times29".toList

/-- An `eval` oracle under which every expression evaluates to the
callable `fTimes`. -/
def evalPred : List Char → EvalOut Nat := fun _ => .ok (.callable fTimes)

/-- A stripped, non-empty input line that the command loop does not
understand and reacts to by printing the help text: an unknown single
character (not one of `b c d f p n q`), a multi-character line whose first
character is not `n` (this includes lines like `qq`), an `n` whose argument
parses as an integer `k ≤ 0` (Python `['n'] * k` is empty, hence falsy), or
an `n` whose argument fails integer parsing and whose `eval` raises a
`SyntaxError`. -/
def helpLine {D : Type} (evF : List Char → EvalOut D) (l : List Char) :
    Prop :=
  match stripChars l with
  | [] => False
  | c0 :: restAll =>
    (restAll = [] ∧ c0 ∉ (['b', 'c', 'd', 'f', 'p', 'n', 'q'] : List Char)) ∨
    (restAll ≠ [] ∧ c0 ≠ 'n') ∨
    (c0 = 'n' ∧ restAll ≠ [] ∧ ∃ k, pyIntL restAll = some k ∧ k ≤ 0) ∨
    (c0 = 'n' ∧ restAll ≠ [] ∧ pyIntL restAll = none ∧
      evF restAll = EvalOut.synErr)

/-- The shape of the elements of every command list the parser returns: a
single-character command among `b c d f p n`, or an `eval` result (which
need not be callable). -/
def ParserCmd {D : Type} : Cmd D → Prop
  | .ch c => c ∈ (['b', 'c', 'd', 'f', 'p', 'n'] : List Char)
  | .code _ => True

/-- A queue element on which the dispatch loops are guaranteed to match a
branch: one of the six single-character commands, or a callable.  A
non-callable `eval` result matches no branch of the `if`/`elif` chain. -/
def GoodCmd {D : Type} : Cmd D → Prop
  | .ch c => c ∈ (['b', 'c', 'd', 'f', 'p', 'n'] : List Char)
  | .code (.callable _) => True
  | .code .plain => False

/-! ## Helper lemmas -/

theorem promptCount_append (a b : List Ev) :
    promptCount (a ++ b) = promptCount a + promptCount b :=
  List.countP_append _ a b

theorem promptCount_printStatus (lp cur : Pass) (nd : PyNode) :
    promptCount (printStatus lp cur nd) = 0 := by
  cases lp <;> cases cur <;>
    simp [printStatus, promptCount, List.countP_cons, List.countP_append]

theorem forwardLoop_top_c {D : Type} {evF : List Char → EvalOut D}
    {nd : PyNode} {arg : D} {fuel : Nat} {cmds : List (Cmd D)}
    {lines : List (List Char)} (h : cmds.getLast? = some (Cmd.ch 'c')) :
    forwardLoop evF nd arg (fuel + 1) cmds lines = ([], .done cmds lines) := by
  simp [forwardLoop, h]

theorem backwardLoop_top_c {D : Type} {evF : List Char → EvalOut D}
    {nd : PyNode} {grad : D} {fuel : Nat} {cmds : List (Cmd D)}
    {lines : List (List Char)} (h : cmds.getLast? = some (Cmd.ch 'c')) :
    backwardLoop evF nd grad (fuel + 1) cmds lines = ([], .done cmds lines) := by
  simp [backwardLoop, h]

theorem forwardLoop_top_n {D : Type} {evF : List Char → EvalOut D}
    {nd : PyNode} {arg : D} {fuel : Nat} {cmds : List (Cmd D)}
    {lines : List (List Char)} (h : cmds.getLast? = some (Cmd.ch 'n')) :
    forwardLoop evF nd arg (fuel + 1) cmds lines
      = ([], .done cmds.dropLast lines) := by
  simp [forwardLoop, h]

theorem backwardLoop_top_n {D : Type} {evF : List Char → EvalOut D}
    {nd : PyNode} {grad : D} {fuel : Nat} {cmds : List (Cmd D)}
    {lines : List (List Char)} (h : cmds.getLast? = some (Cmd.ch 'n')) :
    backwardLoop evF nd grad (fuel + 1) cmds lines
      = ([], .done cmds.dropLast lines) := by
  simp [backwardLoop, h]

theorem doVisit_top_c {D : Type} {evF : List Char → EvalOut D} {fuel : Nat}
    {st : DbgState D} {lines : List (List Char)} {v : Visit D}
    (h : st.commands.getLast? = some (Cmd.ch 'c')) :
    doVisit evF (fuel + 1) st lines v
      = (printStatus st.lastPass (passOf v) (nodeOf v),
         .ok ⟨st.commands, passOf v⟩ lines) := by
  cases v <;>
    simp [doVisit, forwardFn, backwardFn, forwardLoop_top_c h,
      backwardLoop_top_c h, passOf, nodeOf]

theorem doVisit_top_n {D : Type} {evF : List Char → EvalOut D} {fuel : Nat}
    {st : DbgState D} {lines : List (List Char)} {v : Visit D}
    (h : st.commands.getLast? = some (Cmd.ch 'n')) :
    doVisit evF (fuel + 1) st lines v
      = (printStatus st.lastPass (passOf v) (nodeOf v),
         .ok ⟨st.commands.dropLast, passOf v⟩ lines) := by
  cases v <;>
    simp [doVisit, forwardFn, backwardFn, forwardLoop_top_n h,
      backwardLoop_top_n h, passOf, nodeOf]

theorem finalPass_cons {D : Type} (p : Pass) (v : Visit D)
    (vs : List (Visit D)) : finalPass p (v :: vs) = finalPass (passOf v) vs :=
  rfl

theorem getLast?_replicate_succ {α : Type _} (k : Nat) (a : α) :
    (List.replicate (k + 1) a).getLast? = some a := by
  rw [List.replicate_succ']
  exact List.getLast?_concat _

theorem dropLast_replicate_succ {α : Type _} (k : Nat) (a : α) :
    (List.replicate (k + 1) a).dropLast = List.replicate k a := by
  rw [List.replicate_succ']
  exact List.dropLast_concat

/-- Running exactly as many visits as there are queued `'n'` commands pops
one per visit, never prompts, and empties the queue. -/
theorem runVisits_replicate_n {D : Type} (evF : List Char → EvalOut D)
    (fuel : Nat) (lines : List (List Char)) (vs : List (Visit D)) (p : Pass) :
    (runVisits evF (fuel + 1)
        ⟨List.replicate vs.length (Cmd.ch 'n'), p⟩ lines vs).2
      = StepRes.ok ⟨[], finalPass p vs⟩ lines ∧
    ∀ evs ∈ (runVisits evF (fuel + 1)
        ⟨List.replicate vs.length (Cmd.ch 'n'), p⟩ lines vs).1,
      promptCount evs = 0 := by
  induction vs generalizing p with
  | nil =>
    simp [runVisits, finalPass]
  | cons v vs ih =>
    have hd := @doVisit_top_n D evF fuel
      ⟨List.replicate (vs.length + 1) (Cmd.ch 'n'), p⟩ lines v
      (getLast?_replicate_succ _ _)
    rw [show (⟨List.replicate (vs.length + 1) (Cmd.ch 'n'), p⟩ :
          DbgState D).commands.dropLast = List.replicate vs.length (Cmd.ch 'n')
        from dropLast_replicate_succ _ _] at hd
    have ih' := ih (passOf v)
    rw [finalPass_cons]
    constructor
    · simp only [List.length_cons, runVisits, hd]
      exact ih'.1
    · simp only [List.length_cons, runVisits, hd]
      intro evs hevs
      rcases List.mem_cons.mp hevs with rfl | hmem
      · exact promptCount_printStatus _ _ _
      · exact ih'.2 evs hmem

/-- A visit made with an empty command queue and no pending input prints
its status, issues one prompt, and blocks waiting for the user. -/
theorem doVisit_empty_blocked {D : Type} (evF : List Char → EvalOut D)
    (fuel : Nat) (p : Pass) (v : Visit D) :
    doVisit evF (fuel + 1) ⟨[], p⟩ [] v
      = (printStatus p (passOf v) (nodeOf v) ++ [Ev.prompt (passOf v)],
         .blocked) := by
  cases v <;>
    simp [doVisit, forwardFn, backwardFn, forwardLoop, backwardLoop,
      waitForInput, passOf, nodeOf]

/-- Splitting a visit sequence at a successfully completed prefix. -/
theorem runVisits_append {D : Type} (evF : List Char → EvalOut D)
    (fuel : Nat) (st : DbgState D) (lines : List (List Char))
    (vs ws : List (Visit D)) (st' : DbgState D) (rest' : List (List Char))
    (h : (runVisits evF fuel st lines vs).2 = StepRes.ok st' rest') :
    runVisits evF fuel st lines (vs ++ ws)
      = ((runVisits evF fuel st lines vs).1
            ++ (runVisits evF fuel st' rest' ws).1,
         (runVisits evF fuel st' rest' ws).2) := by
  induction vs generalizing st lines with
  | nil =>
    simp only [runVisits] at h
    obtain ⟨rfl, rfl⟩ : st = st' ∧ lines = rest' := by
      injection h with h1 h2; exact ⟨h1, h2⟩
    simp [runVisits]
  | cons v vs ih =>
    rcases hd : doVisit evF fuel st lines v with ⟨evs, r⟩
    cases r with
    | ok st1 rest1 =>
      simp only [runVisits, hd] at h ⊢
      rw [show vs.append ws = vs ++ ws from rfl, ih st1 rest1 h]
      simp
    | blocked => simp [runVisits, hd] at h
    | exited => simp [runVisits, hd] at h
    | raised => simp [runVisits, hd] at h
    | fuelOut => simp [runVisits, hd] at h

theorem forwardLoop_pred_false {D : Type} {evF : List Char → EvalOut D}
    {nd : PyNode} {arg : D} {fuel : Nat} {cmds : List (Cmd D)}
    {lines : List (List Char)} {f : D → PyNode → Bool}
    (h : cmds.getLast? = some (Cmd.code (.callable f)))
    (hf : f arg nd = false) :
    forwardLoop evF nd arg (fuel + 1) cmds lines = ([], .done cmds lines) := by
  simp [forwardLoop, h, hf]

theorem backwardLoop_pred_false {D : Type} {evF : List Char → EvalOut D}
    {nd : PyNode} {grad : D} {fuel : Nat} {cmds : List (Cmd D)}
    {lines : List (List Char)} {f : D → PyNode → Bool}
    (h : cmds.getLast? = some (Cmd.code (.callable f)))
    (hf : f grad nd = false) :
    backwardLoop evF nd grad (fuel + 1) cmds lines = ([], .done cmds lines) := by
  simp [backwardLoop, h, hf]

theorem doVisit_pred_false {D : Type} {evF : List Char → EvalOut D}
    {fuel : Nat} {st : DbgState D} {lines : List (List Char)} {v : Visit D}
    {f : D → PyNode → Bool}
    (h : st.commands.getLast? = some (Cmd.code (.callable f)))
    (hf : f (dataOf v) (nodeOf v) = false) :
    doVisit evF (fuel + 1) st lines v
      = (printStatus st.lastPass (passOf v) (nodeOf v),
         .ok ⟨st.commands, passOf v⟩ lines) := by
  cases v <;>
    simp_all [doVisit, forwardFn, backwardFn, dataOf, nodeOf, passOf,
      forwardLoop_pred_false h, backwardLoop_pred_false h]

theorem forwardLoop_pred_true_refill {D : Type} {evF : List Char → EvalOut D}
    {nd : PyNode} {arg : D} {fuel : Nat} {f : D → PyNode → Bool}
    (hf : f arg nd = true) :
    forwardLoop evF nd arg (fuel + 3) [Cmd.code (.callable f)] [['n']]
      = ([Ev.prompt Pass.f], .done [] []) := by
  have hw : waitForInput evF Pass.f [['n']]
      = ⟨[Ev.prompt Pass.f], .got [Cmd.ch 'n'] []⟩ := rfl
  have h1 : forwardLoop evF nd arg (fuel + 2) [] [['n']]
      = ([Ev.prompt Pass.f], .done [] []) := by
    have h2 : forwardLoop evF nd arg (fuel + 1) [Cmd.ch 'n'] []
        = ([], .done [] []) := forwardLoop_top_n rfl
    rw [show fuel + 2 = (fuel + 1) + 1 from rfl]
    rw [forwardLoop, hw]
    simp [h2]
  rw [show fuel + 3 = (fuel + 2) + 1 from rfl]
  rw [forwardLoop]
  simp [hf, h1]

theorem backwardLoop_pred_true_refill {D : Type} {evF : List Char → EvalOut D}
    {nd : PyNode} {grad : D} {fuel : Nat} {f : D → PyNode → Bool}
    (hf : f grad nd = true) :
    backwardLoop evF nd grad (fuel + 3) [Cmd.code (.callable f)] [['n']]
      = ([Ev.prompt Pass.b], .done [] []) := by
  have hw : waitForInput evF Pass.b [['n']]
      = ⟨[Ev.prompt Pass.b], .got [Cmd.ch 'n'] []⟩ := rfl
  have h1 : backwardLoop evF nd grad (fuel + 2) [] [['n']]
      = ([Ev.prompt Pass.b], .done [] []) := by
    have h2 : backwardLoop evF nd grad (fuel + 1) [Cmd.ch 'n'] []
        = ([], .done [] []) := backwardLoop_top_n rfl
    rw [show fuel + 2 = (fuel + 1) + 1 from rfl]
    rw [backwardLoop, hw]
    simp [h2]
  rw [show fuel + 3 = (fuel + 2) + 1 from rfl]
  rw [backwardLoop]
  simp [hf, h1]

theorem doVisit_pred_true {D : Type} {evF : List Char → EvalOut D}
    {fuel : Nat} {p : Pass} {v : Visit D} {f : D → PyNode → Bool}
    (hf : f (dataOf v) (nodeOf v) = true) :
    doVisit evF (fuel + 3) ⟨[Cmd.code (.callable f)], p⟩ [['n']] v
      = (printStatus p (passOf v) (nodeOf v) ++ [Ev.prompt (passOf v)],
         .ok ⟨[], passOf v⟩ []) := by
  cases v <;>
    simp_all [doVisit, forwardFn, backwardFn, dataOf, nodeOf, passOf,
      forwardLoop_pred_true_refill, backwardLoop_pred_true_refill]

theorem statusLine_mem_printStatus_f (lp : Pass) (nd : PyNode) :
    Ev.statusLine ("Forward after ".toList ++ formatStatus nd)
      ∈ printStatus lp .f nd := by
  cases lp <;> simp [printStatus]

theorem statusLine_mem_printStatus_b (lp : Pass) (nd : PyNode) :
    Ev.statusLine ("Backward before ".toList ++ formatStatus nd)
      ∈ printStatus lp .b nd := by
  cases lp <;> simp [printStatus]

theorem forwardFn_events_split {D : Type} (evF : List Char → EvalOut D)
    (fuel : Nat) (nd : PyNode) (arg : D) (st : DbgState D)
    (lines : List (List Char)) :
    ∃ tail, (forwardFn evF fuel nd arg st lines).1
      = printStatus st.lastPass .f nd ++ tail := by
  unfold forwardFn
  rcases hl : forwardLoop evF nd arg fuel st.commands lines with ⟨evs, r⟩
  cases r <;> exact ⟨evs, rfl⟩

theorem backwardFn_events_split {D : Type} (evF : List Char → EvalOut D)
    (fuel : Nat) (nd : PyNode) (grad : D) (st : DbgState D)
    (lines : List (List Char)) :
    ∃ tail, (backwardFn evF fuel nd grad st lines).1
      = printStatus st.lastPass .b nd ++ tail := by
  unfold backwardFn
  rcases hl : backwardLoop evF nd grad fuel st.commands lines with ⟨evs, r⟩
  cases r <;> exact ⟨evs, rfl⟩

theorem forwardLoop_nil_nil {D : Type} (evF : List Char → EvalOut D)
    (nd : PyNode) (arg : D) (fuel : Nat) :
    forwardLoop evF nd arg (fuel + 1) [] []
      = ([Ev.prompt Pass.f], .blocked) := by
  simp [forwardLoop, waitForInput]

theorem parseLine_help_of_helpLine {D : Type}
    {evF : List Char → EvalOut D} {l : List Char} (h : helpLine evF l) :
    parseLine evF l = .help := by
  unfold helpLine at h
  unfold parseLine
  rcases hs : stripChars l with _ | ⟨c0, restAll⟩ <;> rw [hs] at h
  · exact absurd h (by simp)
  · rcases h with ⟨h1, h2⟩ | ⟨h1, h2⟩ | ⟨h1, h2, k, h3, h4⟩ | ⟨h1, h2, h3, h4⟩
    · simp only [List.mem_cons, List.mem_singleton, List.not_mem_nil] at h2
      push_neg at h2
      obtain ⟨hb, hc, hd, hf, hp, hn, hq⟩ := h2
      simp [h1, hb, hc, hd, hf, hp, hn, hq]
    · rcases restAll with _ | ⟨r1, rs⟩
      · exact absurd rfl h1
      · simp [h2]
    · subst h1
      rcases restAll with _ | ⟨r1, rs⟩
      · exact absurd rfl h2
      · simp [h3, h4]
    · subst h1
      rcases restAll with _ | ⟨r1, rs⟩
      · exact absurd rfl h2
      · simp [h3, h4]

theorem parseLine_cmds_shape {D : Type} {evF : List Char → EvalOut D}
    {raw : List Char} {cs : List (Cmd D)}
    (h : parseLine evF raw = .cmds cs) :
    cs ≠ [] ∧ ∀ c ∈ cs, ParserCmd c := by
  unfold parseLine at h
  split at h
  · simp at h
  · split at h
    · rename_i hcond
      injection h with h'
      subst h'
      refine ⟨by simp, ?_⟩
      intro c hc
      rcases List.mem_singleton.mp hc with rfl
      rcases hcond.2 with rfl | rfl | rfl | rfl | rfl <;> simp [ParserCmd]
    · split at h
      · split at h
        · injection h with h'
          subst h'
          refine ⟨by simp, ?_⟩
          intro c hc
          rcases List.mem_singleton.mp hc with rfl
          simp [ParserCmd]
        · split at h
          · split at h
            · simp at h
            · rename_i k hk hle
              injection h with h'
              subst h'
              refine ⟨?_, ?_⟩
              · refine List.ne_nil_of_length_pos ?_
                rw [List.length_replicate]
                omega
              · intro c hc
                rcases List.eq_of_mem_replicate hc with rfl
                simp [ParserCmd]
          · split at h
            · injection h with h'
              subst h'
              refine ⟨by simp, ?_⟩
              intro c hc
              rcases List.mem_singleton.mp hc with rfl
              simp [ParserCmd]
            · simp at h
            · simp at h
      · split at h
        · simp at h
        · simp at h

theorem waitForInput_got_shape {D : Type} {evF : List Char → EvalOut D}
    {tag : Pass} :
    ∀ {lines : List (List Char)} {cs : List (Cmd D)}
      {rest : List (List Char)},
      (waitForInput evF tag lines).res = .got cs rest →
      cs ≠ [] ∧ ∀ c ∈ cs, ParserCmd c := by
  intro lines
  induction lines with
  | nil =>
    intro cs rest h
    simp [waitForInput] at h
  | cons l ls ih =>
    intro cs rest h
    unfold waitForInput at h
    rcases hp : parseLine evF l with cs' | _ | _ | _ | _ <;> rw [hp] at h <;>
      simp only [] at h
    · obtain ⟨rfl, rfl⟩ : cs' = cs ∧ ls = rest := by
        injection h with h1 h2
        exact ⟨h1, h2⟩
      exact parseLine_cmds_shape hp
    · exact ih h
    · exact ih h
    · simp at h
    · simp at h

theorem forwardLoop_good_no_fuelOut {D : Type} (evF : List Char → EvalOut D)
    (nd : PyNode) (arg : D) :
    ∀ (fuel : Nat) (cmds : List (Cmd D)), (∀ c ∈ cmds, GoodCmd c) →
      cmds.length < fuel →
      (forwardLoop evF nd arg fuel cmds []).2 ≠ LoopRes.fuelOut := by
  intro fuel
  induction fuel with
  | zero =>
    intro cmds _ hlen
    omega
  | succ fuel ih =>
    intro cmds hgood hlen
    rcases hlast : cmds.getLast? with _ | cmd
    · obtain rfl : cmds = [] := List.getLast?_eq_none_iff.mp hlast
      simp [forwardLoop, waitForInput]
    · have hne : cmds ≠ [] := by
        intro hc
        subst hc
        simp at hlast
      have hmem : cmd ∈ cmds := by
        obtain ⟨ys, hys⟩ := List.getLast?_eq_some_iff.mp hlast
        subst hys
        simp
      have hg := hgood cmd hmem
      have hlen' : cmds.dropLast.length < fuel := by
        have h1 := List.length_dropLast cmds
        have hpos : 0 < cmds.length := List.length_pos.mpr hne
        omega
      have hgood' : ∀ c ∈ cmds.dropLast, GoodCmd c :=
        fun c hc => hgood c ((List.dropLast_sublist cmds).subset hc)
      cases cmd with
      | ch c =>
        simp only [GoodCmd, List.mem_cons, List.mem_singleton,
          List.not_mem_nil, or_false] at hg
        rcases hg with rfl | rfl | rfl | rfl | rfl | rfl
        · simp [forwardLoop, hlast]
        · simp [forwardLoop, hlast]
        · simp [forwardLoop, hlast]
        · simp [forwardLoop, hlast]
        · have hrec := ih cmds.dropLast hgood' hlen'
          rcases he : forwardLoop evF nd arg fuel cmds.dropLast []
            with ⟨evs, r⟩
          rw [he] at hrec
          simp [forwardLoop, hlast, he]
          exact fun hc => hrec hc
        · simp [forwardLoop, hlast]
      | code v =>
        cases v with
        | callable f =>
          rcases hfa : f arg nd with _ | _
          · simp [forwardLoop, hlast, hfa]
          · have hrec := ih cmds.dropLast hgood' hlen'
            rcases he : forwardLoop evF nd arg fuel cmds.dropLast []
              with ⟨evs, r⟩
            rw [he] at hrec
            simp [forwardLoop, hlast, hfa, he]
            exact fun hc => hrec hc
        | plain => simp [GoodCmd] at hg

theorem backwardLoop_good_no_fuelOut {D : Type} (evF : List Char → EvalOut D)
    (nd : PyNode) (grad : D) :
    ∀ (fuel : Nat) (cmds : List (Cmd D)), (∀ c ∈ cmds, GoodCmd c) →
      cmds.length < fuel →
      (backwardLoop evF nd grad fuel cmds []).2 ≠ LoopRes.fuelOut := by
  intro fuel
  induction fuel with
  | zero =>
    intro cmds _ hlen
    omega
  | succ fuel ih =>
    intro cmds hgood hlen
    rcases hlast : cmds.getLast? with _ | cmd
    · obtain rfl : cmds = [] := List.getLast?_eq_none_iff.mp hlast
      simp [backwardLoop, waitForInput]
    · have hne : cmds ≠ [] := by
        intro hc
        subst hc
        simp at hlast
      have hmem : cmd ∈ cmds := by
        obtain ⟨ys, hys⟩ := List.getLast?_eq_some_iff.mp hlast
        subst hys
        simp
      have hg := hgood cmd hmem
      have hlen' : cmds.dropLast.length < fuel := by
        have h1 := List.length_dropLast cmds
        have hpos : 0 < cmds.length := List.length_pos.mpr hne
        omega
      have hgood' : ∀ c ∈ cmds.dropLast, GoodCmd c :=
        fun c hc => hgood c ((List.dropLast_sublist cmds).subset hc)
      cases cmd with
      | ch c =>
        simp only [GoodCmd, List.mem_cons, List.mem_singleton,
          List.not_mem_nil, or_false] at hg
        rcases hg with rfl | rfl | rfl | rfl | rfl | rfl
        · simp [backwardLoop, hlast]
        · simp [backwardLoop, hlast]
        · simp [backwardLoop, hlast]
        · simp [backwardLoop, hlast]
        · have hrec := ih cmds.dropLast hgood' hlen'
          rcases he : backwardLoop evF nd grad fuel cmds.dropLast []
            with ⟨evs, r⟩
          rw [he] at hrec
          simp [backwardLoop, hlast, he]
          exact fun hc => hrec hc
        · simp [backwardLoop, hlast]
      | code v =>
        cases v with
        | callable f =>
          rcases hfa : f grad nd with _ | _
          · simp [backwardLoop, hlast, hfa]
          · have hrec := ih cmds.dropLast hgood' hlen'
            rcases he : backwardLoop evF nd grad fuel cmds.dropLast []
              with ⟨evs, r⟩
            rw [he] at hrec
            simp [backwardLoop, hlast, hfa, he]
            exact fun hc => hrec hc
        | plain => simp [GoodCmd] at hg

/-! ## Claims -/

/-- **C8**: `save_as_legacy_model` is a pure passthrough: for every
`root_op` and `filename` it performs exactly one host-framework serializer
call, with those same two arguments, and leaves the graph and the debugger
state untouched. -/
theorem saveAsLegacyModel_passthrough {D : Type} (root_op : GNode)
    (filename : List Char) (st : DbgState D) :
    save_as_legacy_model root_op filename st
      = ([HostCall.saveLegacy root_op filename], root_op, st) :=
  rfl

/-- **C2**: `debug_model` collects the model's nodes by depth-first search,
builds a substitution mapping every visited node to a fresh `DebugNode`
wrapping exactly that node, and clones the model under that substitution
with the `share` clone method. -/
theorem debugModel_wraps_all_nodes (model : GNode) :
    (debug_model model).method = CloneMethod.share ∧
    (debug_model model).base = model ∧
    (debug_model model).substitution
      = (depth_first_search model (fun _ => true)).map
          (fun n => (n, DebugNodeRec.mk n "DebugNode".toList)) ∧
    ∀ p ∈ (debug_model model).substitution,
      p.2.after = p.1 ∧ p.2.nodeName = "DebugNode".toList := by
  refine ⟨rfl, rfl, rfl, ?_⟩
  intro p hp
  simp only [debug_model, cloneModel, List.mem_map] at hp
  obtain ⟨n, -, rfl⟩ := hp
  exact ⟨rfl, rfl⟩

/-- Witness for C2 at the one-node graph `g0`: its substitution has the
pair `(g0, DebugNode g0)`, and the theorem yields that the debug node wraps
`g0` itself. -/
theorem debugModel_wraps_all_nodes_witness :
    (DebugNodeRec.mk g0 "DebugNode".toList).after = g0 ∧
    (DebugNodeRec.mk g0 "DebugNode".toList).nodeName = "DebugNode".toList := by
  refine (debugModel_wraps_all_nodes g0).2.2.2
    (g0, DebugNodeRec.mk g0 "DebugNode".toList) ?_
  have hsub : (debug_model g0).substitution
      = [(g0, DebugNodeRec.mk g0 "DebugNode".toList)] := by
    simp [debug_model, cloneModel, depth_first_search,
      depth_first_search.visitAll, g0]
  rw [hsub]
  exact List.mem_singleton.mpr rfl

/-- **C1**: `DebugNode` is a pass-through node: whenever `forward` returns,
it returns `(None, argument)` for the very argument it was given, and
whenever `backward` returns, it returns the given root gradients unchanged
— whatever commands were processed during the call. -/
theorem debugNode_passthrough {D : Type} (evF : List Char → EvalOut D)
    (fuel : Nat) (nd : PyNode) (st : DbgState D) (lines : List (List Char)) :
    (∀ (arg : D) st' rest rs out,
        (forwardFn evF fuel nd arg st lines).2 = FwdRes.ok st' rest rs out →
        rs = none ∧ out = arg) ∧
    (∀ (grad : D) st' rest g,
        (backwardFn evF fuel nd grad st lines).2 = BwdRes.ok st' rest g →
        g = grad) := by
  constructor
  · intro arg st' rest rs out h
    unfold forwardFn at h
    rcases hl : forwardLoop evF nd arg fuel st.commands lines with ⟨evs, r⟩
    rw [hl] at h
    cases r <;> simp_all
  · intro grad st' rest g h
    unfold backwardFn at h
    rcases hl : backwardLoop evF nd grad fuel st.commands lines with ⟨evs, r⟩
    rw [hl] at h
    cases r <;> simp_all

/-- Witness for C1: concrete forward and backward calls (queue `['c']`)
return `(None, 5)` and `7` respectively. -/
theorem debugNode_passthrough_witness :
    ((none : Option Unit) = none ∧ (5 : Nat) = 5) ∧ (7 : Nat) = 7 :=
  ⟨(debugNode_passthrough evalPlain 1 nd0 ⟨[.ch 'c'], .f⟩ []).1
      5 ⟨[.ch 'c'], .f⟩ [] none 5 rfl,
   (debugNode_passthrough evalPlain 1 nd0 ⟨[.ch 'c'], .b⟩ []).2
      7 ⟨[.ch 'c'], .b⟩ [] 7 rfl⟩

/-- **C9**: the run-until-end command `'c'` is never popped: once `'c'` is
at the top of the shared queue, any sequence of forward/backward visits on
any `DebugNode`s completes with the queue (and pending input) unchanged and
never prompts for input again. -/
theorem cTop_never_prompts_again {D : Type} (evF : List Char → EvalOut D)
    (fuel : Nat) (st : DbgState D) (lines : List (List Char))
    (vs : List (Visit D)) (h : st.commands.getLast? = some (Cmd.ch 'c')) :
    (runVisits evF (fuel + 1) st lines vs).2
      = StepRes.ok ⟨st.commands, finalPass st.lastPass vs⟩ lines ∧
    ∀ evs ∈ (runVisits evF (fuel + 1) st lines vs).1, promptCount evs = 0 := by
  induction vs generalizing st with
  | nil =>
    simp [runVisits, finalPass]
  | cons v vs ih =>
    have hd := @doVisit_top_c D evF fuel st lines v h
    have ih' := ih ⟨st.commands, passOf v⟩ h
    rw [finalPass_cons]
    constructor
    · simp only [runVisits, hd]
      exact ih'.1
    · simp only [runVisits, hd]
      intro evs hevs
      rcases List.mem_cons.mp hevs with rfl | hmem
      · exact promptCount_printStatus _ _ _
      · exact ih'.2 evs hmem

/-- **C5**: entering `n <k>` for a positive integer `k` enqueues exactly
`k` single-step commands; each of the next `k` visits (forward or
backward, on any node) consumes exactly one of them without prompting;
after them the queue is empty and the next visit prompts again. -/
theorem nCount_steps {D : Type} (evF : List Char → EvalOut D)
    (line rest : List Char) (k : Nat) (hline : stripChars line = 'n' :: rest)
    (hint : pyIntL rest = some (k : Int)) (hk : 0 < k) :
    parseLine evF line = .cmds (List.replicate k (Cmd.ch 'n')) ∧
    ∀ (fuel : Nat) (p : Pass) (vs : List (Visit D)) (v' : Visit D),
      vs.length = k →
      (runVisits evF (fuel + 1) ⟨List.replicate k (Cmd.ch 'n'), p⟩ [] vs).2
          = StepRes.ok ⟨[], finalPass p vs⟩ [] ∧
      (∀ evs ∈ (runVisits evF (fuel + 1)
          ⟨List.replicate k (Cmd.ch 'n'), p⟩ [] vs).1,
        promptCount evs = 0) ∧
      runVisits evF (fuel + 1) ⟨List.replicate k (Cmd.ch 'n'), p⟩ []
          (vs ++ [v'])
        = ((runVisits evF (fuel + 1)
              ⟨List.replicate k (Cmd.ch 'n'), p⟩ [] vs).1
            ++ [printStatus (finalPass p vs) (passOf v') (nodeOf v')
                  ++ [Ev.prompt (passOf v')]],
           .blocked) ∧
      promptCount (printStatus (finalPass p vs) (passOf v') (nodeOf v')
          ++ [Ev.prompt (passOf v')]) = 1 := by
  have hne : rest ≠ [] := by
    intro hr
    rw [hr] at hint
    simp [pyIntL, stripChars] at hint
  constructor
  · unfold parseLine
    rw [hline]
    rcases rest with _ | ⟨r, rs⟩
    · exact absurd rfl hne
    · have hklt : ¬ ((k : Int) ≤ 0) := by omega
      simp [hint, hklt]
  · intro fuel p vs v' hlen
    subst hlen
    refine ⟨(runVisits_replicate_n evF fuel [] vs p).1,
            (runVisits_replicate_n evF fuel [] vs p).2, ?_, ?_⟩
    · rw [runVisits_append evF (fuel + 1) _ [] vs [v'] ⟨[], finalPass p vs⟩
        [] (runVisits_replicate_n evF fuel [] vs p).1]
      simp [runVisits, doVisit_empty_blocked]
    · rw [promptCount_append, promptCount_printStatus]
      rfl

/-- **C6**: entering `n <lambda>` installs the evaluated predicate as the
sole pending command; execution then passes through every visit where the
predicate applied to `(data, node)` is false without prompting and with
the predicate still queued; at the first visit where it is true the
predicate is popped and that very visit prompts anew. -/
theorem nPredicate_runs_until_true {D : Type} (evF : List Char → EvalOut D)
    (line rest : List Char) (f : D → PyNode → Bool)
    (hline : stripChars line = 'n' :: rest) (hne : rest ≠ [])
    (hint : pyIntL rest = none) (hev : evF rest = EvalOut.ok (.callable f)) :
    parseLine evF line = .cmds [Cmd.code (.callable f)] ∧
    (∀ (fuel : Nat) (p : Pass) (vs : List (Visit D)),
      (∀ v ∈ vs, f (dataOf v) (nodeOf v) = false) →
      (runVisits evF (fuel + 1) ⟨[Cmd.code (.callable f)], p⟩ [] vs).2
          = StepRes.ok ⟨[Cmd.code (.callable f)], finalPass p vs⟩ [] ∧
      ∀ evs ∈ (runVisits evF (fuel + 1)
          ⟨[Cmd.code (.callable f)], p⟩ [] vs).1, promptCount evs = 0) ∧
    (∀ (fuel : Nat) (p : Pass) (v : Visit D),
      f (dataOf v) (nodeOf v) = true →
      doVisit evF (fuel + 3) ⟨[Cmd.code (.callable f)], p⟩ [['n']] v
        = (printStatus p (passOf v) (nodeOf v) ++ [Ev.prompt (passOf v)],
           .ok ⟨[], passOf v⟩ [])) := by
  refine ⟨?_, ?_, ?_⟩
  · unfold parseLine
    rw [hline]
    rcases rest with _ | ⟨r, rs⟩
    · exact absurd rfl hne
    · simp [hint, hev]
  · intro fuel p vs
    induction vs generalizing p with
    | nil =>
      intro _
      simp [runVisits, finalPass]
    | cons v vs ih =>
      intro hall
      have hv : f (dataOf v) (nodeOf v) = false := hall v (by simp)
      have hd := @doVisit_pred_false D evF fuel
        ⟨[Cmd.code (.callable f)], p⟩ [] v f rfl hv
      have ih' := ih (passOf v) (fun w hw => hall w (by simp [hw]))
      rw [finalPass_cons]
      constructor
      · simp only [runVisits, hd]
        exact ih'.1
      · simp only [runVisits, hd]
        intro evs hevs
        rcases List.mem_cons.mp hevs with rfl | hmem
        · exact promptCount_printStatus _ _ _
        · exact ih'.2 evs hmem
  · intro fuel p v hv
    exact doVisit_pred_true hv

/-- **C10** (amended): every command list the parser returns is non-empty
and each element is a single-character command among `b c d f p n` or an
`eval` result — but the `eval` result need not be callable; whenever every
queued element *is* a recognized character or a callable, the dispatch
loops always match a branch and, given fuel `|queue| + 1` and no pending
input, terminate or block at a prompt instead of running out of fuel. -/
theorem parser_output_dispatch_progress {D : Type}
    (evF : List Char → EvalOut D) (tag : Pass) :
    (∀ (lines : List (List Char)) (cs : List (Cmd D)) rest,
      (waitForInput evF tag lines).res = .got cs rest →
      cs ≠ [] ∧ ∀ c ∈ cs, ParserCmd c) ∧
    (∀ (cmds : List (Cmd D)) (nd : PyNode) (arg : D),
      (∀ c ∈ cmds, GoodCmd c) →
      (forwardLoop evF nd arg (cmds.length + 1) cmds []).2
        ≠ LoopRes.fuelOut) ∧
    (∀ (cmds : List (Cmd D)) (nd : PyNode) (grad : D),
      (∀ c ∈ cmds, GoodCmd c) →
      (backwardLoop evF nd grad (cmds.length + 1) cmds []).2
        ≠ LoopRes.fuelOut) := by
  refine ⟨fun lines cs rest h => waitForInput_got_shape h,
          fun cmds nd arg hgood =>
            forwardLoop_good_no_fuelOut evF nd arg (cmds.length + 1) cmds
              hgood (by omega),
          fun cmds nd grad hgood =>
            backwardLoop_good_no_fuelOut evF nd grad (cmds.length + 1) cmds
              hgood (by omega)⟩

/-- C10 counterexample: the line `nx` under an `eval` oracle returning a
non-callable value makes the parser return the queue `[code plain]`, whose
element is neither one of the command characters nor callable; the forward
dispatch loop then matches no branch and spins until its fuel runs out. -/
theorem parser_noncallable_counterexample :
    (waitForInput evalPlain Pass.f [['n', 'x']]).res
      = WaitRes.got [Cmd.code PyVal.plain] [] ∧
    ¬ GoodCmd (Cmd.code (PyVal.plain : PyVal Nat)) ∧
    (forwardLoop evalPlain nd0 5 9 [Cmd.code PyVal.plain] []).2
      = LoopRes.fuelOut :=
  ⟨rfl, by simp [GoodCmd], rfl⟩

/-- Witness for C10 (amended): the parser output for the single line `n`
is the non-empty well-shaped queue `[ch n]`, and dispatch on it does not
exhaust its fuel. -/
theorem parser_output_dispatch_progress_witness :
    ([Cmd.ch 'n'] : List (Cmd Nat)) ≠ [] ∧
    (forwardLoop evalPlain nd0 5 2 [Cmd.ch 'n'] []).2 ≠ LoopRes.fuelOut := by
  constructor
  · exact ((parser_output_dispatch_progress evalPlain Pass.f).1
      [['n']] [Cmd.ch 'n'] [] rfl).1
  · refine (parser_output_dispatch_progress evalPlain Pass.f).2.1
      [Cmd.ch 'n'] nd0 5 ?_
    intro c hc
    rcases List.mem_singleton.mp hc with rfl
    simp [GoodCmd]

/-- **C7** (amended): a non-empty unrecognized input line (unknown single
character; multi-character line not starting with `n`; `n` with an integer
argument `≤ 0`; `n` whose argument raises a `SyntaxError` under `eval`)
makes the command loop print the help text and prompt again, enqueuing
nothing and raising nothing; an *empty* line also re-prompts without
enqueuing, but silently — the help text is *not* printed for it. -/
theorem bad_line_reprompts {D : Type} (evF : List Char → EvalOut D)
    (tag : Pass) (l : List Char) (rest : List (List Char)) :
    (helpLine evF l →
      waitForInput evF tag (l :: rest)
        = ⟨Ev.prompt tag :: Ev.helpText :: (waitForInput evF tag rest).evs,
           (waitForInput evF tag rest).res⟩) ∧
    (stripChars l = [] →
      waitForInput evF tag (l :: rest)
        = ⟨Ev.prompt tag :: (waitForInput evF tag rest).evs,
           (waitForInput evF tag rest).res⟩) := by
  constructor
  · intro h
    have hp := parseLine_help_of_helpLine h
    simp [waitForInput, hp]
  · intro h
    have hp : parseLine evF l = .emptyLine := by
      unfold parseLine
      rw [h]
    simp [waitForInput, hp]

/-- C7 counterexample: the claim includes the empty line among the inputs
for which the help text is printed, but the code's `if not new_input:
continue` skips the help printout — the empty line is re-prompted with *no*
help text ever emitted. -/
theorem empty_line_no_help_counterexample :
    parseLine evalPlain [] = ParseRes.emptyLine ∧
    helpCount (waitForInput evalPlain Pass.f [[]]).evs = 0 ∧
    (waitForInput evalPlain Pass.f [[]]).evs
      = [Ev.prompt Pass.f, Ev.prompt Pass.f] :=
  ⟨rfl, rfl, rfl⟩

/-- Witness for C7 (amended): the unknown command `x` prints the help text
and re-prompts; with no further input the loop blocks having enqueued
nothing. -/
theorem bad_line_reprompts_witness :
    waitForInput evalPlain Pass.f [['x']]
      = ⟨[Ev.prompt Pass.f, Ev.helpText, Ev.prompt Pass.f],
         WaitRes.blocked⟩ := by
  rw [(bad_line_reprompts evalPlain Pass.f ['x'] []).1
    (Or.inl ⟨rfl, by decide⟩)]
  rfl

/-- **C4** (amended): every forward and every backward invocation prints
the status line of the wrapped node, which carries the node's type, its
uid, its dynamic axes and static shape, and its name *when the name is
non-empty* (an empty name is omitted); the invocation pauses for input
when the shared command queue is empty, but a pending command (e.g. `'c'`)
suppresses the pause. -/
theorem status_printed_every_visit {D : Type} (evF : List Char → EvalOut D)
    (fuel : Nat) (st : DbgState D) (lines : List (List Char)) (nd : PyNode) :
    (∀ (arg : D),
      Ev.statusLine ("Forward after ".toList ++ formatStatus nd)
        ∈ (forwardFn evF fuel nd arg st lines).1) ∧
    (∀ (grad : D),
      Ev.statusLine ("Backward before ".toList ++ formatStatus nd)
        ∈ (backwardFn evF fuel nd grad st lines).1) ∧
    (nodeTypeStr nd <+: formatStatus nd) ∧
    (uidSeg nd <:+: formatStatus nd) ∧
    (shapeSeg nd <:+: formatStatus nd) ∧
    (nd.name ≠ [] →
      "name='".toList ++ nd.name ++ "' ".toList <:+: formatStatus nd) ∧
    (st.commands = [] → lines = [] → ∀ (arg : D),
      promptCount (forwardFn evF (fuel + 1) nd arg st lines).1 = 1 ∧
      (forwardFn evF (fuel + 1) nd arg st lines).2 = FwdRes.blocked) := by
  refine ⟨?_, ?_, ?_, ?_, ?_, ?_, ?_⟩
  · intro arg
    obtain ⟨tail, ht⟩ := forwardFn_events_split evF fuel nd arg st lines
    rw [ht]
    exact List.mem_append_left _ (statusLine_mem_printStatus_f _ _)
  · intro grad
    obtain ⟨tail, ht⟩ := backwardFn_events_split evF fuel nd grad st lines
    rw [ht]
    exact List.mem_append_left _ (statusLine_mem_printStatus_b _ _)
  · exact ⟨" node with ".toList ++ nameStr nd ++ uidSeg nd ++ shapeSeg nd,
      by simp [formatStatus, List.append_assoc]⟩
  · exact ⟨nodeTypeStr nd ++ " node with ".toList ++ nameStr nd, shapeSeg nd,
      by simp [formatStatus, List.append_assoc]⟩
  · exact ⟨nodeTypeStr nd ++ " node with ".toList ++ nameStr nd ++ uidSeg nd,
      [], by simp [formatStatus, List.append_assoc]⟩
  · intro hname
    exact ⟨nodeTypeStr nd ++ " node with ".toList, uidSeg nd ++ shapeSeg nd,
      by simp [formatStatus, nameStr, hname, List.append_assoc]⟩
  · intro hc hl arg
    have hfl : forwardLoop evF nd arg (fuel + 1) st.commands lines
        = ([Ev.prompt Pass.f], .blocked) := by
      rw [hc, hl]
      exact forwardLoop_nil_nil evF nd arg fuel
    constructor
    · simp only [forwardFn, hfl]
      rw [promptCount_append, promptCount_printStatus]
      rfl
    · simp only [forwardFn, hfl]

/-- C4 counterexample: with `'c'` pending in the shared queue, a forward
invocation at the unnamed node `nd0` issues *no* prompt (so not every
invocation pauses execution), and no `name='…'` fragment occurs in its
status line (so the name is not always printed). -/
theorem status_every_visit_counterexample :
    promptCount (forwardFn evalPlain 1 nd0 5 ⟨[Cmd.ch 'c'], Pass.f⟩ []).1 = 0
    ∧ ¬ ("name='".toList ++ nd0.name ++ "'".toList <:+: formatStatus nd0) := by
  constructor
  · rfl
  · decide

/-- Witness for C4 (amended) at the named node `nd1`: the name fragment is
an infix of the status line, and a forward invocation with an empty queue
and no pending input prompts exactly once and blocks. -/
theorem status_printed_every_visit_witness :
    ("name='".toList ++ "out".toList ++ "' ".toList <:+: formatStatus nd1) ∧
    promptCount (forwardFn evalPlain 1 nd1 5 ⟨[], Pass.f⟩ []).1 = 1 := by
  constructor
  · exact (status_printed_every_visit evalPlain 0 ⟨[], Pass.f⟩ [] nd1
      ).2.2.2.2.2.1 (by decide)
  · exact ((status_printed_every_visit evalPlain 0 ⟨[], Pass.f⟩ [] nd1
      ).2.2.2.2.2.2 rfl rfl 5).1

/-- **C3**: the pending command queue and last-pass marker are process-wide
state shared by all `DebugNode` instances: the state a visit writes is
exactly the state the next visit reads, whichever nodes are involved; and
concretely, of the two steps enqueued by `n 2` at one node's forward
prompt, one is consumed there and the other by the next node visited — here
a *backward* visit on a different node — without any further prompt. -/
theorem commands_shared_across_nodes {D : Type} (evF : List Char → EvalOut D) :
    (∀ (fuel : Nat) (st : DbgState D) (lines : List (List Char))
        (v : Visit D) (vs : List (Visit D)) (evs : List Ev)
        (st1 : DbgState D) (rest1 : List (List Char)),
      doVisit evF fuel st lines v = (evs, .ok st1 rest1) →
      runVisits evF fuel st lines (v :: vs)
        = (evs :: (runVisits evF fuel st1 rest1 vs).1,
           (runVisits evF fuel st1 rest1 vs).2)) ∧
    (∀ (n1 n2 : PyNode) (a1 a2 : D),
      (runVisits evF 2 ⟨[], Pass.f⟩ ["n 2".toList]
          [Visit.fwd n1 a1, Visit.bwd n2 a2]).2
        = StepRes.ok ⟨[], Pass.b⟩ [] ∧
      ∃ e1 e2,
        (runVisits evF 2 ⟨[], Pass.f⟩ ["n 2".toList]
            [Visit.fwd n1 a1, Visit.bwd n2 a2]).1 = [e1, e2] ∧
        promptCount e1 = 1 ∧ promptCount e2 = 0) := by
  constructor
  · intro fuel st lines v vs evs st1 rest1 hd
    simp [runVisits, hd]
  · intro n1 n2 a1 a2
    have hw : waitForInput evF Pass.f [['n', ' ', '2']]
        = ⟨[Ev.prompt Pass.f], .got [Cmd.ch 'n', Cmd.ch 'n'] []⟩ := rfl
    have hin : forwardLoop evF n1 a1 1 [Cmd.ch 'n', Cmd.ch 'n'] []
        = ([], .done [Cmd.ch 'n'] [])
        := @forwardLoop_top_n D evF n1 a1 0 [Cmd.ch 'n', Cmd.ch 'n'] [] rfl
    have hl1 : forwardLoop evF n1 a1 2 [] [['n', ' ', '2']]
        = ([Ev.prompt Pass.f], .done [Cmd.ch 'n'] []) := by
      rw [show (2 : Nat) = 1 + 1 from rfl, forwardLoop, hw]
      simp [hin]
    have hl2 : backwardLoop evF n2 a2 2 [Cmd.ch 'n'] []
        = ([], .done [] [])
        := @backwardLoop_top_n D evF n2 a2 1 [Cmd.ch 'n'] [] rfl
    have hv1 : doVisit evF 2 ⟨[], Pass.f⟩ [['n', ' ', '2']] (Visit.fwd n1 a1)
        = (printStatus Pass.f Pass.f n1 ++ [Ev.prompt Pass.f],
           .ok ⟨[Cmd.ch 'n'], Pass.f⟩ []) := by
      simp [doVisit, forwardFn, hl1]
    have hv2 : doVisit evF 2 ⟨[Cmd.ch 'n'], Pass.f⟩ [] (Visit.bwd n2 a2)
        = (printStatus Pass.f Pass.b n2 ++ [], .ok ⟨[], Pass.b⟩ []) := by
      simp [doVisit, backwardFn, hl2]
    refine ⟨by simp [runVisits, hv1, hv2],
            printStatus Pass.f Pass.f n1 ++ [Ev.prompt Pass.f],
            printStatus Pass.f Pass.b n2 ++ [], ?_, ?_, ?_⟩
    · simp [runVisits, hv1, hv2]
    · rw [promptCount_append, promptCount_printStatus]
      rfl
    · rw [promptCount_append, promptCount_printStatus]
      rfl

/-- Witness for C3: the concrete two-node run with nodes `nd0`, `nd1`
ends with an empty queue, no leftover input, and `_last_pass = 'b'`. -/
theorem commands_shared_across_nodes_witness :
    (runVisits evalPlain 2 ⟨[], Pass.f⟩ ["n 2".toList]
        [Visit.fwd nd0 5, Visit.bwd nd1 7]).2
      = StepRes.ok ⟨[], Pass.b⟩ [] :=
  ((commands_shared_across_nodes evalPlain).2 nd0 nd1 5 7).1

/-- Witness for C6 with the `Times`-predicate: the visit at the constant
node passes without prompting and keeps the predicate queued; the visit at
the `Times` node pops it and prompts. -/
theorem nPredicate_runs_until_true_witness :
    (runVisits evalPred 1 ⟨[Cmd.code (.callable fTimes)], Pass.f⟩ []
        [Visit.fwd nd0 5]).2
      = StepRes.ok ⟨[Cmd.code (.callable fTimes)], Pass.f⟩ [] ∧
    (doVisit evalPred 3 ⟨[Cmd.code (.callable fTimes)], Pass.f⟩ [['n']]
        (Visit.fwd nd1 5)).2 = StepRes.ok ⟨[], Pass.f⟩ [] := by
  have h := nPredicate_runs_until_true evalPred "n f".toList " f".toList
    fTimes (by decide) (by decide) (by decide) rfl
  constructor
  · exact (h.2.1 0 .f [Visit.fwd nd0 5]
      (by intro v hv; rcases List.mem_singleton.mp hv with rfl; decide)).1
  · rw [h.2.2 0 .f (Visit.fwd nd1 5) (by decide)]
    rfl

/-- Witness for C5 at `n 2`: after enqueuing, a forward and a backward
visit both run without prompting and empty the queue. -/
theorem nCount_steps_witness :
    (runVisits evalPlain 1 ⟨List.replicate 2 (Cmd.ch 'n'), Pass.f⟩ []
        [Visit.fwd nd0 5, Visit.bwd nd1 7]).2
      = StepRes.ok ⟨[], Pass.b⟩ [] :=
  ((nCount_steps evalPlain "n 2".toList " 2".toList 2 (by decide) (by decide)
      (by decide)).2 0 .f [Visit.fwd nd0 5, Visit.bwd nd1 7]
      (Visit.fwd nd0 9) rfl).1

/-- Witness for C9: with `'c'` on top of the queue, a concrete
forward-then-backward run ends with the queue still `['c']`, the input
stream untouched, and no prompts. -/
theorem cTop_never_prompts_again_witness :
    (runVisits evalPlain 1 ⟨[.ch 'c'], .f⟩ ["n 2".toList]
        [Visit.fwd nd0 5, Visit.bwd nd1 7]).2
      = StepRes.ok ⟨[.ch 'c'], .b⟩ ["n 2".toList] :=
  (cTop_never_prompts_again evalPlain 0 ⟨[.ch 'c'], .f⟩ ["n 2".toList]
    [Visit.fwd nd0 5, Visit.bwd nd1 7] rfl).1

end CNTKDebug
